import Mathlib

/-!
A Lean model of the `shortcut-rs` crate (`src/shortcut_files/`): the
platform-neutral `ShortcutFile` record and its builder (`mod.rs`), the
Linux desktop-entry text codec (`linux.rs`), and the Windows shell-link
backend's read stub (`windows.rs`).

Modelling conventions: Rust strings are `List Char`; `PathBuf` is
`OsPath` (valid UTF-8 text, or an opaque non-UTF-8 value on which
`Path::to_str` returns `None`); the destination file of a save is passed
in and out explicitly as its contents; a Rust panic is an explicit
`panics` outcome of `PResult`.  `Char.isWhitespace` (space, tab, CR, LF)
stands in for Rust's `char::is_whitespace`.
-/

/-- Rust `String` / `&str`, modelled as a list of characters. -/
abbrev Str := List Char

/-- Shorthand turning a Lean string literal into the `Str` model. -/
def str (s : String) : Str := s.data

/-- Rust `PathBuf`: either valid UTF-8 text, or a non-UTF-8 path
(identified opaquely) on which `Path::to_str` returns `None`. -/
inductive OsPath where
  | utf8 (s : Str)
  | nonUtf8 (id : Nat)
deriving DecidableEq, Repr

/-- Rust `Path::to_str`. -/
def OsPath.to_str : OsPath → Option Str
  | .utf8 s => some s
  | .nonUtf8 _ => none

/-- Whether `to_str` succeeds on this path. -/
def OsPath.isText : OsPath → Bool
  | .utf8 _ => true
  | .nonUtf8 _ => false

/-- The text of a UTF-8 path (`[]` on a non-UTF-8 path). -/
def OsPath.text : OsPath → Str
  | .utf8 s => s
  | .nonUtf8 _ => []

/-- The shortcut record of `mod.rs` (`pub struct ShortcutFile`), field for
field and in declared order. -/
structure ShortcutFile where
  name : Str
  description : Option Str
  path : OsPath
  arguments : List Str
  icon : Option OsPath
  working_directory : Option OsPath
  show_terminal : Bool
  categories : List Str
deriving DecidableEq, Repr

/-- `ShortcutFile::new(name, path)` from `mod.rs`. -/
def ShortcutFile.new (name : Str) (path : OsPath) : ShortcutFile :=
  { name := name, description := none, path := path, arguments := [],
    icon := none, working_directory := none, show_terminal := false,
    categories := [] }

/-- Builder method `description` of `mod.rs` (primed because the Lean
field projection takes the unprimed name). -/
def ShortcutFile.description' (r : ShortcutFile) (d : Str) : ShortcutFile :=
  { r with description := some d }

/-- Builder method `working_directory` of `mod.rs`. -/
def ShortcutFile.working_directory' (r : ShortcutFile) (w : OsPath) : ShortcutFile :=
  { r with working_directory := some w }

/-- Builder method `arg` of `mod.rs`: pushes one argument token. -/
def ShortcutFile.arg (r : ShortcutFile) (a : Str) : ShortcutFile :=
  { r with arguments := r.arguments ++ [a] }

/-- Builder method `arguments` of `mod.rs`: replaces the whole sequence. -/
def ShortcutFile.arguments' (r : ShortcutFile) (args : List Str) : ShortcutFile :=
  { r with arguments := args }

/-- Builder method `icon` of `mod.rs`. -/
def ShortcutFile.icon' (r : ShortcutFile) (i : OsPath) : ShortcutFile :=
  { r with icon := some i }

/-- Builder method `show_terminal` of `mod.rs`: sets the flag to true. -/
def ShortcutFile.show_terminal' (r : ShortcutFile) : ShortcutFile :=
  { r with show_terminal := true }

/-- Builder method `category` of `mod.rs`: pushes one category token. -/
def ShortcutFile.category (r : ShortcutFile) (c : Str) : ShortcutFile :=
  { r with categories := r.categories ++ [c] }

/-- Builder method `categories` of `mod.rs`: replaces the whole sequence. -/
def ShortcutFile.categories' (r : ShortcutFile) (cs : List Str) : ShortcutFile :=
  { r with categories := cs }

/-! ### Rust string primitives used by the Linux codec -/

/-- Rust `str::trim`, start side. -/
def trimStart (l : Str) : Str := l.dropWhile Char.isWhitespace

/-- Rust `str::trim`, end side. -/
def trimEnd (l : Str) : Str := (l.reverse.dropWhile Char.isWhitespace).reverse

/-- Rust `str::trim`: leading and trailing whitespace removed. -/
def rustTrim (l : Str) : Str := trimEnd (trimStart l)

/-- Rust `str::splitn(2, c)`: the part before the first `c`, and — when a
`c` occurs — the untouched remainder.  The second component `none` models
the iterator yielding no second element. -/
def splitn2 (c : Char) : Str → Str × Option Str
  | [] => ([], none)
  | x :: xs =>
    if x = c then ([], some xs)
    else
      let r := splitn2 c xs
      (x :: r.1, r.2)

/-- Rust `str::split(c)`: always yields at least one (possibly empty)
piece; a trailing separator yields a trailing empty piece. -/
def splitOnC (c : Char) : Str → List Str
  | [] => [[]]
  | x :: xs =>
    if x = c then [] :: splitOnC c xs
    else
      match splitOnC c xs with
      | [] => [[x]]
      | h :: t => (x :: h) :: t

/-- Rust `[String]::join(sep)`. -/
def joinSep (sep : Str) : List Str → Str
  | [] => []
  | [x] => x
  | x :: xs => x ++ sep ++ joinSep sep xs

/-- Strip one trailing carriage return (what Rust `str::lines` does to a
line that ended in `\r\n`). -/
def stripCR (l : Str) : Str :=
  if l.getLast? = some '\r' then l.dropLast else l

/-- Rust `str::lines`: split at `\n`, drop a final empty piece (optional
final line ending), strip `\r` from the pieces that a `\n` terminated. -/
def rustLines (s : Str) : List Str :=
  let parts := splitOnC '\n' s
  let most := (parts.dropLast).map stripCR
  match parts.getLast? with
  | some [] => most
  | some last => most ++ [last]
  | none => most

/-! ### Linux text codec (`linux.rs`) -/

/-- `LinuxShortcutError` of `linux.rs`. -/
inductive LinuxShortcutError where
  | IOErr (msg : Str)
  | PathNotValidUTF8
  | MissingValue (which : Str)
deriving DecidableEq, Repr

/-- One optional path-valued line of `save_shortcut_file`: the
`.map(|v| v.to_str() ...).transpose()?` pattern of `linux.rs` applied to
`working_directory` (key `Path=`) and `icon` (key `Icon=`). -/
def optPathLine (keyEq : Str) (p : Option OsPath) :
    Except LinuxShortcutError (Option Str) :=
  match p with
  | none => .ok none
  | some v =>
    match v.to_str with
    | none => .error .PathNotValidUTF8
    | some t => .ok (some (keyEq ++ t))

/-- The pure line-building part of `save_shortcut_file` (`linux.rs`,
lines 41–90): the exact sequence of lines the writer emits, or the
conversion error it stops with.  Conversion order follows the source:
target path, then working directory, then icon. -/
def save_shortcut_lines (s : ShortcutFile) : Except LinuxShortcutError (List Str) :=
  match s.path.to_str with
  | none => .error .PathNotValidUTF8
  | some command =>
    let exec :=
      if s.arguments.isEmpty then str "Exec=" ++ command
      else str "Exec=" ++ command ++ str " " ++ joinSep (str " ") s.arguments
    match optPathLine (str "Path=") s.working_directory with
    | .error e => .error e
    | .ok wd =>
      match optPathLine (str "Icon=") s.icon with
      | .error e => .error e
      | .ok icon =>
        let desc := s.description.map (fun d => str "Comment=" ++ d)
        let term :=
          if s.show_terminal then str "Terminal=true" else str "Terminal=false"
        let cats :=
          if s.categories.isEmpty then none
          else some (str "Categories=" ++ joinSep (str ";") s.categories ++ str ";")
        .ok ([str "[Desktop Entry]", str "Type=Application",
              str "Name=" ++ s.name, exec]
             ++ wd.toList ++ icon.toList ++ desc.toList ++ [term] ++ cats.toList)

/-- The file contents produced by the `writeln!` calls: each line
followed by a newline. -/
def fileText : List Str → Str
  | [] => []
  | l :: ls => l ++ '\n' :: fileText ls

/-- Effect of writing `w` from position 0 into a file opened with
`OpenOptions::new().write(true).create(true)` — created if absent, NOT
truncated: bytes of a longer pre-existing file survive past the written
prefix. -/
def writeNoTruncate (old : Option Str) (w : Str) : Str :=
  match old with
  | none => w
  | some o => w ++ o.drop w.length

/-- `save_shortcut_file` of `linux.rs` against an explicit destination
file state (`old`: the contents of the destination before the call, or
`none` if absent).  Returns the result and the destination contents
after the call; the open happens before any conversion, so on a
conversion error the file exists but is unchanged (empty if new). -/
def save_shortcut_file (s : ShortcutFile) (old : Option Str) :
    Except LinuxShortcutError Unit × Str :=
  match save_shortcut_lines s with
  | .error e => (.error e, old.getD [])
  | .ok ls => (.ok (), writeNoTruncate old (fileText ls))

/-- Outcome of a Rust call that may panic: a panic (with its message), an
error return, or a success. -/
inductive PResult (ε α : Type) where
  | panics (msg : Str)
  | error (e : ε)
  | ok (a : α)
deriving DecidableEq, Repr

/-- Whether a `PResult` is an error return. -/
def PResult.isError {ε α : Type} : PResult ε α → Bool
  | .error _ => true
  | _ => false

/-- The mutable locals of `read_shortcut_file`'s scan loop
(`linux.rs`, lines 96–103). -/
structure ParseState where
  name : Option Str
  path : Option OsPath
  icon : Option OsPath
  description : Option Str
  arguments : Option (List Str)
  working_directory : Option OsPath
  show_terminal : Bool
  categories : Option (List Str)
deriving DecidableEq, Repr

/-- All fields start unset, `show_terminal` starts false. -/
def initState : ParseState :=
  { name := none, path := none, icon := none, description := none,
    arguments := none, working_directory := none, show_terminal := false,
    categories := none }

/-- The `match key` arm of the scan loop (`linux.rs`, lines 116–140),
applied to an already-split key/value pair.  In the `Exec` arm the split
always yields a first token, so the `[]` case is unreachable
(`splitOnC_ne_nil`). -/
def applyKV (st : ParseState) (key value : Str) : ParseState :=
  if key = str "Name" then { st with name := some value }
  else if key = str "Path" then { st with working_directory := some (OsPath.utf8 value) }
  else if key = str "Icon" then { st with icon := some (OsPath.utf8 value) }
  else if key = str "Comment" then { st with description := some value }
  else if key = str "Exec" then
    match splitOnC ' ' value with
    | [] => st
    | c :: args => { st with path := some (OsPath.utf8 c), arguments := some args }
  else if key = str "Terminal" then { st with show_terminal := decide (value = str "true") }
  else if key = str "Categories" then { st with categories := some (splitOnC ';' value) }
  else st

/-- One iteration of the scan loop (`linux.rs`, lines 105–141): trim the
line, skip it if empty or a `#` comment, split on the first `=`, and
dispatch on the key.  `none` models the panic of
`split.next().unwrap()` when the line contains no `=`. -/
def stepLine (st : ParseState) (l : Str) : Option ParseState :=
  if rustTrim l = [] then some st
  else if (rustTrim l).head? = some '#' then some st
  else
    match splitn2 '=' (rustTrim l) with
    | (_, none) => none
    | (key, some value) => some (applyKV st key value)

/-- The whole scan loop over the file's lines; `none` = some line
panicked. -/
def runLines (st : ParseState) : List Str → Option ParseState
  | [] => some st
  | l :: ls =>
    match stepLine st l with
    | none => none
    | some st' => runLines st' ls

/-- `read_shortcut_file` of `linux.rs` applied to the contents of the
source file (the `fs::read_to_string` is abstracted into the `content`
argument).  After the scan, `name` is demanded first (error naming
`Name`), then `path` — which only an `Exec` line sets — with an error
naming `Path`. -/
def read_shortcut_file (content : Str) : PResult LinuxShortcutError ShortcutFile :=
  match runLines initState (rustLines content) with
  | none => .panics (str "called Option::unwrap on a None value")
  | some st =>
    match st.name with
    | none => .error (.MissingValue (str "Name"))
    | some n =>
      match st.path with
      | none => .error (.MissingValue (str "Path"))
      | some p =>
        .ok { name := n, description := st.description, path := p,
              arguments := st.arguments.getD [], icon := st.icon,
              working_directory := st.working_directory,
              show_terminal := st.show_terminal,
              categories := st.categories.getD [] }

/-! ### Facade (`mod.rs`) -/

/-- `FileShortcutError` of `mod.rs` (on the Linux target, the
`NativeError` variant wraps `LinuxShortcutError`). -/
inductive FileShortcutError where
  | NativeError (e : LinuxShortcutError)
  | TargetPathDoesNotExist (p : OsPath)
  | IconPathDoesNotExist (p : OsPath)
  | WorkingDirectoryPathDoesNotExist (p : OsPath)
deriving DecidableEq, Repr

/-- The delegation step of `ShortcutFile::save`: run the platform codec
and wrap its error into `NativeError`.  Returns the result and the
destination contents after the call. -/
def saveDelegate (r : ShortcutFile) (old : Option Str) :
    Except FileShortcutError Unit × Option Str :=
  let p := save_shortcut_file r old
  (p.1.mapError FileShortcutError.NativeError, some p.2)

/-- The working-directory existence check of `ShortcutFile::save`,
between the icon check and the delegation. -/
def saveCheckedWd (r : ShortcutFile) (ex : OsPath → Bool) (old : Option Str) :
    Except FileShortcutError Unit × Option Str :=
  match r.working_directory with
  | some w =>
    if ex w = false then (.error (.WorkingDirectoryPathDoesNotExist w), old)
    else saveDelegate r old
  | none => saveDelegate r old

/-- `ShortcutFile::save` of `mod.rs` against an abstract filesystem:
`ex` tells which paths exist, `old` is the destination file's contents
before the call (`none` if absent).  Checks run in source order: target
path, then icon, then working directory, then delegation. -/
def ShortcutFile.save (r : ShortcutFile) (ex : OsPath → Bool) (old : Option Str) :
    Except FileShortcutError Unit × Option Str :=
  if ex r.path = false then (.error (.TargetPathDoesNotExist r.path), old)
  else
    match r.icon with
    | some i =>
      if ex i = false then (.error (.IconPathDoesNotExist i), old)
      else saveCheckedWd r ex old
    | none => saveCheckedWd r ex old

/-! ### Windows shell-link backend (`windows.rs`) -/

/-- `WindowsShortcutError` of `windows.rs`.  Note there is no
unsupported-operation variant. -/
inductive WindowsShortcutError where
  | PathToStringError (p : OsPath)
  | StringToCStringError (pos : Nat)
  | WindowsError (code : Int)
deriving DecidableEq, Repr

namespace Windows

/-- `read_shortcut_file` of `windows.rs`: the body is
`todo!("Support reading shortcuts")`, which panics unconditionally. -/
def read_shortcut_file (_p : OsPath) : PResult WindowsShortcutError ShortcutFile :=
  .panics (str "not yet implemented: Support reading shortcuts")

end Windows

/-! ### Line-analysis helpers for stating properties of the reader -/

/-- The key/value pair the scan loop extracts from a line: `none` when
the line is skipped (blank/whitespace-only or `#` comment) or has no `=`
(in which case the loop itself panics instead). -/
def keyValOf (l : Str) : Option (Str × Str) :=
  if rustTrim l = [] then none
  else if (rustTrim l).head? = some '#' then none
  else
    match splitn2 '=' (rustTrim l) with
    | (_, none) => none
    | (k, some v) => some (k, v)

/-- Whether a line carries the given key. -/
def lineHasKey (k : Str) (l : Str) : Bool :=
  match keyValOf l with
  | some kv => decide (kv.1 = k)
  | none => false

/-- The value of the last `Terminal` line among the given lines (later
lines shadow earlier ones, as in the scan loop). -/
def terminalOf : List Str → Option Str
  | [] => none
  | l :: ls =>
    match terminalOf ls with
    | some v => some v
    | none =>
      match keyValOf l with
      | some kv => if kv.1 = str "Terminal" then some kv.2 else none
      | none => none

/-! ### Concrete records used in counterexamples and witnesses -/

/-- The record of the repository's own `test_save_shortcut_file` test
(`linux.rs`, lines 163–173). -/
def testRecord : ShortcutFile :=
  { name := str "Test", description := some (str "This is a test shortcut"),
    path := OsPath.utf8 (str "/usr/bin/ls"), arguments := [str "-l"],
    icon := some (OsPath.utf8 (str "/usr/share/icons/ls.png")),
    working_directory := none, show_terminal := false,
    categories := [str "Utility", str "System"] }

/-- Write a record with the text codec and read the produced file back. -/
def roundTrip (r : ShortcutFile) : PResult LinuxShortcutError ShortcutFile :=
  match save_shortcut_lines r with
  | .error e => .error e
  | .ok ls => read_shortcut_file (fileText ls)

/-- A minimal record whose save succeeds. -/
def rMin : ShortcutFile :=
  { name := str "a", description := none, path := OsPath.utf8 (str "/bin/x"),
    arguments := [], icon := none, working_directory := none,
    show_terminal := false, categories := [] }

/-- The text `save_shortcut_file` writes for `rMin` into a fresh file. -/
def wMin : Str := (save_shortcut_file rMin none).2

/-- The record of the spec's formatting example: arguments `-l`, `-a`,
categories `Utility`, `System`. -/
def rArgsCats : ShortcutFile :=
  { name := str "ls", description := none,
    path := OsPath.utf8 (str "/usr/bin/ls"),
    arguments := [str "-l", str "-a"], icon := none,
    working_directory := none, show_terminal := false,
    categories := [str "Utility", str "System"] }

/-- The lines `save_shortcut_file` emits for `rMin`. -/
def wMinLines : List Str :=
  [str "[Desktop Entry]", str "Type=Application", str "Name=a",
   str "Exec=/bin/x", str "Terminal=false"]

/-- A small input whose `Terminal` line carries the literal `true`. -/
def sTermTrue : Str := str "Name=A\nExec=/x\nTerminal=true"

/-- The record `read_shortcut_file` produces for `sTermTrue`. -/
def rcTermTrue : ShortcutFile :=
  { name := str "A", description := none, path := OsPath.utf8 (str "/x"),
    arguments := [], icon := none, working_directory := none,
    show_terminal := true, categories := [] }

/-! ### Helper lemmas -/

theorem splitOnC_ne_nil (c : Char) (s : Str) : splitOnC c s ≠ [] := by
  cases s with
  | nil => simp [splitOnC]
  | cons x xs =>
    unfold splitOnC
    by_cases h : x = c
    · simp [h]
    · simp only [if_neg h]
      cases splitOnC c xs <;> simp

theorem dropWhile_rdropWhile_self (p : Char → Bool) (l : Str) :
    ((l.dropWhile p).rdropWhile p).dropWhile p = (l.dropWhile p).rdropWhile p := by
  cases hb : (l.dropWhile p).rdropWhile p with
  | nil => simp
  | cons y ys =>
    obtain ⟨t, ht⟩ := List.rdropWhile_prefix (p := p) (l := l.dropWhile p)
    rw [hb] at ht
    have ha := List.dropWhile_idempotent (p := p) (l := l)
    rw [← ht] at ha
    simp only [List.cons_append] at ha
    have hy : p y = false := by
      by_contra hpy
      simp only [Bool.not_eq_false] at hpy
      rw [List.dropWhile_cons_of_pos hpy] at ha
      have hlen := congrArg List.length ha
      have hle := (List.dropWhile_suffix (l := ys ++ t) p).length_le
      have hcat : (ys ++ t).length = ys.length + t.length := List.length_append ys t
      simp at hlen
      omega
    simp [List.dropWhile_cons_of_neg, hy]

theorem rustTrim_idem (l : Str) : rustTrim (rustTrim l) = rustTrim l := by
  show trimEnd (trimStart (trimEnd (trimStart l))) = trimEnd (trimStart l)
  have e1 : trimStart (trimEnd (trimStart l)) = trimEnd (trimStart l) :=
    dropWhile_rdropWhile_self Char.isWhitespace l
  rw [e1]
  exact List.rdropWhile_idempotent (p := Char.isWhitespace) (l := trimStart l)

theorem stepLine_some_eq {st st' : ParseState} {l : Str}
    (h : stepLine st l = some st') :
    st' = match keyValOf l with
          | none => st
          | some kv => applyKV st kv.1 kv.2 := by
  unfold stepLine at h
  unfold keyValOf
  by_cases h1 : rustTrim l = []
  · rw [if_pos h1] at h
    rw [if_pos h1]
    injection h with h
    exact h.symm
  · rw [if_neg h1] at h
    rw [if_neg h1]
    by_cases h2 : (rustTrim l).head? = some '#'
    · rw [if_pos h2] at h
      rw [if_pos h2]
      injection h with h
      exact h.symm
    · rw [if_neg h2] at h
      rw [if_neg h2]
      cases hs : splitn2 '=' (rustTrim l) with
      | mk k vo =>
        rw [hs] at h
        cases vo with
        | none => exact absurd h (by simp)
        | some v =>
          injection h with h
          exact h.symm

theorem stepLine_skip {st st1 : ParseState} {l : Str}
    (h : stepLine st l = some st1) (hk : keyValOf l = none) : st1 = st := by
  have e := stepLine_some_eq h
  rw [hk] at e
  exact e

theorem stepLine_apply {st st1 : ParseState} {l : Str} {k v : Str}
    (h : stepLine st l = some st1) (hk : keyValOf l = some (k, v)) :
    st1 = applyKV st k v := by
  have e := stepLine_some_eq h
  rw [hk] at e
  exact e

theorem applyKV_name_of_ne {k : Str} (st : ParseState) (v : Str)
    (h : ¬ k = str "Name") : (applyKV st k v).name = st.name := by
  unfold applyKV
  rw [if_neg h]
  repeat' split
  all_goals rfl

theorem applyKV_name_set (st : ParseState) (v : Str) :
    (applyKV st (str "Name") v).name = some v := by
  simp [applyKV]

theorem applyKV_path_of_ne {k : Str} (st : ParseState) (v : Str)
    (h : ¬ k = str "Exec") : (applyKV st k v).path = st.path := by
  unfold applyKV
  repeat' split
  all_goals simp_all

theorem applyKV_exec_path (st : ParseState) (v : Str) :
    (applyKV st (str "Exec") v).path ≠ none := by
  unfold applyKV
  cases hs : splitOnC ' ' v with
  | nil => exact absurd hs (splitOnC_ne_nil ' ' v)
  | cons c args => simp [str, hs]

theorem applyKV_term_of_ne {k : Str} (st : ParseState) (v : Str)
    (h : ¬ k = str "Terminal") : (applyKV st k v).show_terminal = st.show_terminal := by
  unfold applyKV
  repeat' split
  all_goals simp_all

theorem applyKV_term_set (st : ParseState) (v : Str) :
    (applyKV st (str "Terminal") v).show_terminal = decide (v = str "true") := by
  simp [applyKV, str]

theorem stepLine_name_none {st st1 : ParseState} {l : Str}
    (h : stepLine st l = some st1) :
    st1.name = none ↔ (st.name = none ∧ lineHasKey (str "Name") l = false) := by
  cases hk : keyValOf l with
  | none =>
    have e := stepLine_skip h hk
    subst e
    simp [lineHasKey, hk]
  | some kv =>
    obtain ⟨k, v⟩ := kv
    have e := stepLine_apply h hk
    subst e
    by_cases hn : k = str "Name"
    · subst hn
      simp [applyKV_name_set, lineHasKey, hk]
    · simp [applyKV_name_of_ne st v hn, lineHasKey, hk, hn]

theorem stepLine_path_none {st st1 : ParseState} {l : Str}
    (h : stepLine st l = some st1) :
    st1.path = none ↔ (st.path = none ∧ lineHasKey (str "Exec") l = false) := by
  cases hk : keyValOf l with
  | none =>
    have e := stepLine_skip h hk
    subst e
    simp [lineHasKey, hk]
  | some kv =>
    obtain ⟨k, v⟩ := kv
    have e := stepLine_apply h hk
    subst e
    by_cases hn : k = str "Exec"
    · subst hn
      simp [applyKV_exec_path st v, lineHasKey, hk]
    · simp [applyKV_path_of_ne st v hn, lineHasKey, hk, hn]

theorem stepLine_term {st st1 : ParseState} {l : Str}
    (h : stepLine st l = some st1) :
    st1.show_terminal =
      match keyValOf l with
      | some kv => if kv.1 = str "Terminal" then decide (kv.2 = str "true")
                   else st.show_terminal
      | none => st.show_terminal := by
  cases hk : keyValOf l with
  | none =>
    have e := stepLine_skip h hk
    subst e
    rfl
  | some kv =>
    obtain ⟨k, v⟩ := kv
    have e := stepLine_apply h hk
    subst e
    by_cases hn : k = str "Terminal"
    · subst hn
      simp [applyKV_term_set]
    · simp [applyKV_term_of_ne st v hn, hn]

theorem runLines_name_none {ls : List Str} {st st' : ParseState}
    (h : runLines st ls = some st') :
    st'.name = none ↔
      (st.name = none ∧ ∀ l ∈ ls, lineHasKey (str "Name") l = false) := by
  induction ls generalizing st with
  | nil =>
    simp only [runLines] at h
    injection h with h
    subst h
    simp
  | cons l ls ih =>
    simp only [runLines] at h
    cases hs : stepLine st l with
    | none => rw [hs] at h; cases h
    | some st1 =>
      rw [hs] at h
      rw [ih h, stepLine_name_none hs, List.forall_mem_cons]
      tauto

theorem runLines_path_none {ls : List Str} {st st' : ParseState}
    (h : runLines st ls = some st') :
    st'.path = none ↔
      (st.path = none ∧ ∀ l ∈ ls, lineHasKey (str "Exec") l = false) := by
  induction ls generalizing st with
  | nil =>
    simp only [runLines] at h
    injection h with h
    subst h
    simp
  | cons l ls ih =>
    simp only [runLines] at h
    cases hs : stepLine st l with
    | none => rw [hs] at h; cases h
    | some st1 =>
      rw [hs] at h
      rw [ih h, stepLine_path_none hs, List.forall_mem_cons]
      tauto

theorem terminalOf_cons (l : Str) (ls : List Str) :
    terminalOf (l :: ls) =
      match terminalOf ls with
      | some v => some v
      | none =>
        match keyValOf l with
        | some kv => if kv.1 = str "Terminal" then some kv.2 else none
        | none => none := rfl

theorem runLines_term {ls : List Str} {st st' : ParseState}
    (h : runLines st ls = some st') :
    st'.show_terminal =
      match terminalOf ls with
      | some v => decide (v = str "true")
      | none => st.show_terminal := by
  induction ls generalizing st with
  | nil =>
    simp only [runLines] at h
    injection h with h
    subst h
    rfl
  | cons l ls ih =>
    simp only [runLines] at h
    cases hs : stepLine st l with
    | none => rw [hs] at h; cases h
    | some st1 =>
      rw [hs] at h
      have ht := ih h
      rw [ht, terminalOf_cons]
      cases hterm : terminalOf ls with
      | some v => rfl
      | none =>
        rw [stepLine_term hs]
        cases hk : keyValOf l with
        | none => rfl
        | some kv =>
          by_cases hn : kv.1 = str "Terminal"
          · simp [hn]
          · simp [hn]

theorem termLine_mem {r : ShortcutFile} {L : List Str}
    (hw : save_shortcut_lines r = .ok L) :
    (if r.show_terminal then str "Terminal=true" else str "Terminal=false") ∈ L := by
  unfold save_shortcut_lines at hw
  cases hp : r.path.to_str with
  | none => rw [hp] at hw; cases hw
  | some c =>
    rw [hp] at hw
    cases hwd : optPathLine (str "Path=") r.working_directory with
    | error e => rw [hwd] at hw; cases hw
    | ok wd =>
      rw [hwd] at hw
      cases hic : optPathLine (str "Icon=") r.icon with
      | error e => rw [hic] at hw; cases hw
      | ok ic =>
        rw [hic] at hw
        injection hw with hw
        subst hw
        simp [List.mem_append]

/-! ### Claim theorems -/

/-- C8: `new(name, path)` produces a record with `description`, `icon` and
`working_directory` unset, empty `arguments` and `categories`, and
`show_terminal` false; each builder setter returns the record with only
its own field changed — `description`, `working_directory` and `icon` set
their optional field, `arg` appends one token, `arguments` replaces the
sequence, `show_terminal` sets the flag to true, `category` appends one
token, `categories` replaces the sequence.  All setters are pure total
functions of the record (no I/O, no validation). -/
theorem c8_builder_contract (n d a c : Str) (p pw pi : OsPath)
    (args cats : List Str) (r : ShortcutFile) :
    ShortcutFile.new n p =
      { name := n, description := none, path := p, arguments := [],
        icon := none, working_directory := none, show_terminal := false,
        categories := [] } ∧
    r.description' d = { r with description := some d } ∧
    r.working_directory' pw = { r with working_directory := some pw } ∧
    r.arg a = { r with arguments := r.arguments ++ [a] } ∧
    r.arguments' args = { r with arguments := args } ∧
    r.icon' pi = { r with icon := some pi } ∧
    r.show_terminal' = { r with show_terminal := true } ∧
    r.category c = { r with categories := r.categories ++ [c] } ∧
    r.categories' cats = { r with categories := cats } :=
  ⟨rfl, rfl, rfl, rfl, rfl, rfl, rfl, rfl, rfl⟩

/-- C2, counterexample: the native-object (Windows) backend's read does
NOT return an unsupported-operation error — it panics (the body is a
`todo!`), so the call terminates abnormally and no error value is
returned (indeed `WindowsShortcutError` has no such variant). -/
theorem c2_native_read_panics_not_error :
    Windows.read_shortcut_file (OsPath.utf8 (str "shortcut.lnk")) =
      .panics (str "not yet implemented: Support reading shortcuts") ∧
    (Windows.read_shortcut_file (OsPath.utf8 (str "shortcut.lnk"))).isError
      = false :=
  ⟨rfl, rfl⟩

/-- C2, amended: for every source path, read via the native-object
backend panics unconditionally with the `todo` message — it never
partially succeeds and never returns (neither a record nor an error). -/
theorem c2_amended_native_read_always_panics (p : OsPath) :
    Windows.read_shortcut_file p =
      .panics (str "not yet implemented: Support reading shortcuts") := rfl

/-- C9: the text-codec read is NOT total — on a non-empty, non-comment
line containing no `=`, the `split.next().unwrap()` on the absent value
panics instead of returning a record or an error. -/
theorem c9_read_panics_on_line_without_equals :
    read_shortcut_file (str "NoEqualsSign") =
      .panics (str "called Option::unwrap on a None value") := rfl

/-- C10: the reader trims leading and trailing whitespace from every
whole line before any further processing (so leading whitespace before a
key and trailing whitespace after a value are removed), and a
whitespace-only line is skipped exactly like a blank line. -/
theorem c10_read_trims_each_line (st : ParseState) (l : Str) :
    stepLine st l =
      if rustTrim l = [] then some st else stepLine st (rustTrim l) := by
  by_cases h : rustTrim l = []
  · simp [stepLine, h]
  · rw [if_neg h]
    unfold stepLine
    rw [rustTrim_idem]

/-- C1: the text-codec round trip FAILS on the repository's own test
record (valid UTF-8 paths, tokens free of `;` and spaces): the reader
panics on the very first written line `[Desktop Entry]`, which contains
no `=`, so `read(write(record))` is a panic, not the record. -/
theorem c1_roundtrip_fails_on_test_record :
    roundTrip testRecord =
      .panics (str "called Option::unwrap on a None value") ∧
    roundTrip testRecord ≠ .ok testRecord := by
  constructor
  · rfl
  · decide

/-- C5: `save_shortcut_file` opens the destination with
`write(true).create(true)` and NO truncation: saving over a pre-existing
longer file leaves the old file's residual bytes after the newly written
prefix, so the file does not contain exactly the lines written by this
call. -/
theorem c5_save_does_not_truncate :
    (save_shortcut_file rMin none).2 = wMin ∧
    (save_shortcut_file rMin (some (wMin ++ str "JUNK"))).1 = .ok () ∧
    (save_shortcut_file rMin (some (wMin ++ str "JUNK"))).2
      = wMin ++ str "JUNK" ∧
    wMin ++ str "JUNK" ≠ wMin := by
  refine ⟨rfl, rfl, ?_, by decide⟩
  decide

/-- C4, counterexample: the empty input has no line with key `Exec`, yet
read fails with the missing-value error naming `Name`, not `Path` — the
`Name` check runs first, so "no Exec line" alone does not determine the
error. -/
theorem c4_empty_input_errors_name_not_path :
    read_shortcut_file (str "") = .error (.MissingValue (str "Name")) ∧
    LinuxShortcutError.MissingValue (str "Name")
      ≠ LinuxShortcutError.MissingValue (str "Path") :=
  ⟨rfl, by decide⟩

/-- C4, amended: when the scan completes without panicking, a file with
no `Name`-keyed line fails with the missing-value error naming `Name`;
a file with a `Name`-keyed line but no `Exec`-keyed line fails with the
missing-value error naming `Path` (the path is taken only from `Exec`). -/
theorem c4_missing_name_then_missing_path (s : Str) (st : ParseState)
    (h : runLines initState (rustLines s) = some st) :
    ((∀ l ∈ rustLines s, lineHasKey (str "Name") l = false) →
      read_shortcut_file s = .error (.MissingValue (str "Name"))) ∧
    ((∃ l ∈ rustLines s, lineHasKey (str "Name") l = true) →
      (∀ l ∈ rustLines s, lineHasKey (str "Exec") l = false) →
      read_shortcut_file s = .error (.MissingValue (str "Path"))) := by
  constructor
  · intro hall
    have hname : st.name = none := (runLines_name_none h).mpr ⟨rfl, hall⟩
    simp only [read_shortcut_file, h, hname]
  · intro hex hallE
    obtain ⟨l0, hl0, hk0⟩ := hex
    have hpath : st.path = none := (runLines_path_none h).mpr ⟨rfl, hallE⟩
    cases hn : st.name with
    | none =>
      have := ((runLines_name_none h).mp hn).2 l0 hl0
      rw [hk0] at this
      cases this
    | some nm =>
      simp only [read_shortcut_file, h, hn, hpath]

/-- C4 witness: a file consisting of the single line `Name=A` (a `Name`
line, no `Exec` line) fails with the missing-value error naming `Path`. -/
theorem c4_missing_path_witness :
    read_shortcut_file (str "Name=A")
      = .error (.MissingValue (str "Path")) := by
  have h : runLines initState (rustLines (str "Name=A")) =
      some { initState with name := some (str "A") } := rfl
  exact (c4_missing_name_then_missing_path (str "Name=A") _ h).2
    (by decide) (by decide)

/-- C3: the facade's precondition checks run in source order before any
codec work: a missing target path yields `TargetPathDoesNotExist` with
the destination untouched; otherwise a set-but-missing icon yields
`IconPathDoesNotExist`; otherwise a set-but-missing working directory
yields `WorkingDirectoryPathDoesNotExist`; only when all checks pass does
save delegate to the platform codec, wrapping its failure into
`NativeError`. -/
theorem c3_save_checks_in_order (ex : OsPath → Bool) (r : ShortcutFile)
    (old : Option Str) :
    (ex r.path = false →
      r.save ex old = (.error (.TargetPathDoesNotExist r.path), old)) ∧
    (∀ i, ex r.path = true → r.icon = some i → ex i = false →
      r.save ex old = (.error (.IconPathDoesNotExist i), old)) ∧
    (∀ w, ex r.path = true → (∀ i, r.icon = some i → ex i = true) →
      r.working_directory = some w → ex w = false →
      r.save ex old = (.error (.WorkingDirectoryPathDoesNotExist w), old)) ∧
    (ex r.path = true → (∀ i, r.icon = some i → ex i = true) →
      (∀ w, r.working_directory = some w → ex w = true) →
      r.save ex old =
        ((save_shortcut_file r old).1.mapError FileShortcutError.NativeError,
         some (save_shortcut_file r old).2)) := by
  refine ⟨?_, ?_, ?_, ?_⟩
  · intro hp
    simp [ShortcutFile.save, hp]
  · intro i hp hi hex
    simp [ShortcutFile.save, hp, hi, hex]
  · intro w hp hicon hw hex
    cases hi : r.icon with
    | none => simp [ShortcutFile.save, hp, hi, saveCheckedWd, hw, hex]
    | some i =>
      have hit := hicon i hi
      simp [ShortcutFile.save, hp, hi, hit, saveCheckedWd, hw, hex]
  · intro hp hicon hwd
    cases hi : r.icon with
    | none =>
      cases hw : r.working_directory with
      | none => simp [ShortcutFile.save, hp, hi, saveCheckedWd, hw, saveDelegate]
      | some w =>
        have hwt := hwd w hw
        simp [ShortcutFile.save, hp, hi, saveCheckedWd, hw, hwt, saveDelegate]
    | some i =>
      have hit := hicon i hi
      cases hw : r.working_directory with
      | none => simp [ShortcutFile.save, hp, hi, hit, saveCheckedWd, hw, saveDelegate]
      | some w =>
        have hwt := hwd w hw
        simp [ShortcutFile.save, hp, hi, hit, saveCheckedWd, hw, hwt, saveDelegate]

/-- C3 witness: on a filesystem where no path exists, saving `rMin` to an
absent destination fails with `TargetPathDoesNotExist` and leaves the
destination absent. -/
theorem c3_target_missing_witness :
    rMin.save (fun _ => false) none =
      (.error (.TargetPathDoesNotExist rMin.path), none) :=
  (c3_save_checks_in_order (fun _ => false) rMin none).1 rfl

/-- C6: for every record whose path (and set icon / working directory)
is text-representable, the writer emits exactly the fixed line sequence:
section header, type marker, `Name`, an `Exec` line equal to the path
followed (iff arguments is non-empty) by a single space and the
arguments joined by single spaces, then `Path` iff the working directory
is set, `Icon` iff set, `Comment` iff set, a `Terminal` line with
literal `true`/`false`, and a `Categories` line (tokens joined by `;`
with a trailing `;`) iff categories is non-empty. -/
theorem c6_write_emits_fixed_line_sequence (r : ShortcutFile)
    (hp : r.path.isText = true)
    (hw : ∀ w ∈ r.working_directory, w.isText = true)
    (hi : ∀ i ∈ r.icon, i.isText = true) :
    save_shortcut_lines r = .ok (
      [str "[Desktop Entry]", str "Type=Application",
       str "Name=" ++ r.name,
       str "Exec=" ++ r.path.text ++
         (if r.arguments.isEmpty then []
          else str " " ++ joinSep (str " ") r.arguments)]
      ++ (r.working_directory.map (fun w => str "Path=" ++ w.text)).toList
      ++ (r.icon.map (fun i => str "Icon=" ++ i.text)).toList
      ++ (r.description.map (fun d => str "Comment=" ++ d)).toList
      ++ [if r.show_terminal then str "Terminal=true"
          else str "Terminal=false"]
      ++ (if r.categories.isEmpty then []
          else [str "Categories=" ++ joinSep (str ";") r.categories
                ++ str ";"])) := by
  cases hpp : r.path with
  | nonUtf8 pid =>
    rw [hpp] at hp
    simp [OsPath.isText] at hp
  | utf8 cp =>
    cases hww : r.working_directory with
    | some w =>
      cases w with
      | nonUtf8 wid =>
        have hbad := hw _ hww
        simp [OsPath.isText] at hbad
      | utf8 tw =>
        cases hii : r.icon with
        | some i =>
          cases i with
          | nonUtf8 iid =>
            have hbad := hi _ hii
            simp [OsPath.isText] at hbad
          | utf8 ti =>
            simp [save_shortcut_lines, optPathLine, hpp, hww, hii,
                  OsPath.to_str, OsPath.text, List.append_assoc]
            refine ⟨?_, ?_⟩ <;> split <;> simp
        | none =>
          simp [save_shortcut_lines, optPathLine, hpp, hww, hii,
                OsPath.to_str, OsPath.text, List.append_assoc]
          refine ⟨?_, ?_⟩ <;> split <;> simp
    | none =>
      cases hii : r.icon with
      | some i =>
        cases i with
        | nonUtf8 iid =>
          have hbad := hi _ hii
          simp [OsPath.isText] at hbad
        | utf8 ti =>
          simp [save_shortcut_lines, optPathLine, hpp, hww, hii,
                OsPath.to_str, OsPath.text, List.append_assoc]
          refine ⟨?_, ?_⟩ <;> split <;> simp
      | none =>
        simp [save_shortcut_lines, optPathLine, hpp, hww, hii,
              OsPath.to_str, OsPath.text, List.append_assoc]
        refine ⟨?_, ?_⟩ <;> split <;> simp

/-- C6 witness: the spec's formatting example — path `/usr/bin/ls`,
arguments `-l` `-a`, categories `Utility` `System` — serializes
`Exec=/usr/bin/ls -l -a` and `Categories=Utility;System;` in the fixed
order. -/
theorem c6_formatting_example_witness :
    save_shortcut_lines rArgsCats = .ok
      [str "[Desktop Entry]", str "Type=Application", str "Name=ls",
       str "Exec=/usr/bin/ls -l -a", str "Terminal=false",
       str "Categories=Utility;System;"] := by
  have h := c6_write_emits_fixed_line_sequence rArgsCats rfl
    (fun w hw => by simp [rArgsCats] at hw)
    (fun i hi => by simp [rArgsCats] at hi)
  exact h

/-- C7: the writer emits the literal line `Terminal=true` when
`show_terminal` is true and `Terminal=false` when it is false; on a
successful read, `show_terminal` is true iff the (last) `Terminal` line's
value is exactly the text `true` — any other value, or absence of the
key, yields false. -/
theorem c7_terminal_flag_literal (r : ShortcutFile) (L : List Str)
    (s : Str) (rc : ShortcutFile)
    (hw : save_shortcut_lines r = .ok L)
    (hr : read_shortcut_file s = .ok rc) :
    (r.show_terminal = true → str "Terminal=true" ∈ L) ∧
    (r.show_terminal = false → str "Terminal=false" ∈ L) ∧
    (rc.show_terminal = true ↔
      terminalOf (rustLines s) = some (str "true")) := by
  have hmem := termLine_mem hw
  refine ⟨?_, ?_, ?_⟩
  · intro ht
    rw [ht] at hmem
    simpa using hmem
  · intro ht
    rw [ht] at hmem
    simpa using hmem
  · unfold read_shortcut_file at hr
    cases hrun : runLines initState (rustLines s) with
    | none => rw [hrun] at hr; cases hr
    | some st =>
      rw [hrun] at hr
      dsimp only at hr
      cases hn : st.name with
      | none => rw [hn] at hr; cases hr
      | some nm =>
        rw [hn] at hr
        dsimp only at hr
        cases hpp : st.path with
        | none => rw [hpp] at hr; cases hr
        | some p =>
          rw [hpp] at hr
          dsimp only at hr
          injection hr with hr
          have hflag : rc.show_terminal = st.show_terminal := by
            rw [← hr]
          rw [hflag, runLines_term hrun]
          cases hterm : terminalOf (rustLines s) with
          | none => simp [initState]
          | some v => simp

/-- C7 witness: `rMin` (flag false) serializes the literal
`Terminal=false` line, and reading an input whose `Terminal` line is
exactly `true` yields the flag true. -/
theorem c7_terminal_witness :
    (rMin.show_terminal = true → str "Terminal=true" ∈ wMinLines) ∧
    (rMin.show_terminal = false → str "Terminal=false" ∈ wMinLines) ∧
    (rcTermTrue.show_terminal = true ↔
      terminalOf (rustLines sTermTrue) = some (str "true")) :=
  c7_terminal_flag_literal rMin wMinLines sTermTrue rcTermTrue rfl rfl
